import Mathlib

/-!
Shallow embedding of the nobat.ir doctor-scraper browser extension
(src/extension/background.js, src/extension/content-script.js,
src/extension/csv-export.js) together with proofs about the claims of
the specification.  Pure functions of the JavaScript source are
translated into executable Lean functions; the work-queue loop of
`processQueue` is modelled as an explicit step function over a state
record, with the browser-automation scrape call abstracted as an
oracle `ScrapeEnv`.
-/

namespace NobatScraper

/-! ## JavaScript character classes -/

/-- The character set matched by the JavaScript regex class `\s`
(ECMAScript WhiteSpace plus LineTerminator), which is also the set
removed by `String.prototype.trim`. -/
def isJsWhitespace (c : Char) : Bool :=
  c = ' ' || c = '\t' || c = '\n' || c.toNat = 11 || c.toNat = 12 || c = '\r' ||
  c.toNat = 0xA0 || c.toNat = 0x1680 ||
  (0x2000 ≤ c.toNat && c.toNat ≤ 0x200A) ||
  c.toNat = 0x2028 || c.toNat = 0x2029 || c.toNat = 0x202F ||
  c.toNat = 0x205F || c.toNat = 0x3000 || c.toNat = 0xFEFF

/-- The zero-width non-joiner U+200C, removed by
`.replace(/‌/g, "")` in `normaliseWhitespace`. -/
def zwnj : Char := Char.ofNat 0x200C

/-- A character of the two locale decimal-digit alphabets handled by
`DIGIT_MAP` / the regex class `[٠-٩۰-۹]`: Arabic-Indic digits
U+0660–U+0669 and Extended (Persian) digits U+06F0–U+06F9. -/
def isLocaleDigit (c : Char) : Bool :=
  (0x660 ≤ c.toNat && c.toNat ≤ 0x669) || (0x6F0 ≤ c.toNat && c.toNat ≤ 0x6F9)

/-- The 20-entry `DIGIT_MAP` lookup applied by `convertLocaleDigits`:
each pair of locale digits (Arabic-Indic U+066x, Extended Arabic-Indic
U+06Fx) is sent to the matching ASCII digit; every other character is
left alone. -/
def convertLocaleDigitChar (c : Char) : Char :=
  if c.toNat = 0x660 ∨ c.toNat = 0x6F0 then '0'
  else if c.toNat = 0x661 ∨ c.toNat = 0x6F1 then '1'
  else if c.toNat = 0x662 ∨ c.toNat = 0x6F2 then '2'
  else if c.toNat = 0x663 ∨ c.toNat = 0x6F3 then '3'
  else if c.toNat = 0x664 ∨ c.toNat = 0x6F4 then '4'
  else if c.toNat = 0x665 ∨ c.toNat = 0x6F5 then '5'
  else if c.toNat = 0x666 ∨ c.toNat = 0x6F6 then '6'
  else if c.toNat = 0x667 ∨ c.toNat = 0x6F7 then '7'
  else if c.toNat = 0x668 ∨ c.toNat = 0x6F8 then '8'
  else if c.toNat = 0x669 ∨ c.toNat = 0x6F9 then '9'
  else c

/-- Model of `convertLocaleDigits` (identical in background.js and
content-script.js): replace every locale digit by its ASCII
counterpart. -/
def convertLocaleDigits (s : String) : String :=
  String.mk (s.toList.map convertLocaleDigitChar)

/-- One pass of `.replace(/\s+/g, " ")`: each maximal run of
whitespace becomes a single ASCII space.  The boolean argument
records whether the previous character belonged to a whitespace
run. -/
def collapseWsAux : Bool → List Char → List Char
  | _, [] => []
  | prevWs, c :: cs =>
    if isJsWhitespace c then
      if prevWs then collapseWsAux true cs
      else ' ' :: collapseWsAux true cs
    else c :: collapseWsAux false cs

def collapseWs (l : List Char) : List Char := collapseWsAux false l

/-- Model of `String.prototype.trim`: strip leading and trailing whitespace. -/
def trimWsList (l : List Char) : List Char :=
  ((l.dropWhile isJsWhitespace).reverse.dropWhile isJsWhitespace).reverse

def jsTrim (s : String) : String := String.mk (trimWsList s.toList)

/-- Model of `normaliseWhitespace` (background.js and content-script.js):
convert locale digits, drop zero-width non-joiners, collapse
whitespace runs to single spaces and trim the ends. -/
def normaliseWhitespace (s : String) : String :=
  String.mk
    (trimWsList
      (collapseWs ((s.toList.map convertLocaleDigitChar).filter (fun c => c ≠ zwnj))))

/-- Model of `normaliseText`, which is an alias of `normaliseWhitespace` in both
scripts. -/
def normaliseText (s : String) : String := normaliseWhitespace s

/-- Model of `normalisePhoneValue` (background.js): normalise whitespace and
keep the human-readable text. -/
def normalisePhoneValue (s : String) : String :=
  let text := normaliseWhitespace s
  if text = "" then "" else text

/-- Model of `phoneKey` (background.js) / `normalisePhoneKey`
(content-script.js): strip every character except ASCII digits and
`+` after locale-digit conversion. -/
def phoneKey (s : String) : String :=
  String.mk ((convertLocaleDigits s).toList.filter (fun c => c.isDigit || c = '+'))

/-! ## License-code extraction (content-script.js `extractCodeToken`) -/

/-- The Unicode Letter property `\p{L}` restricted to the scripts this
extension can encounter: ASCII letters together with the Arabic-script
letter ranges (Arabic letters U+0620–U+064A, the Arabic/Persian letter
extensions U+066E–U+06D3 and U+06FA–U+06FF).  Both locale digit ranges
(U+0660–U+0669, U+06F0–U+06F9) fall outside these ranges, as `\p{L}`
excludes decimal digits. -/
def isUnicodeLetter (c : Char) : Bool :=
  c.isAlpha ||
  (0x620 ≤ c.toNat && c.toNat ≤ 0x64A) ||
  (0x66E ≤ c.toNat && c.toNat ≤ 0x6D3) ||
  (0x6FA ≤ c.toNat && c.toNat ≤ 0x6FF)

/-- The suffix `\d+(?:\s*\p{L})?` of the primary regex of
`extractCodeToken`, matched greedily at the head of `l`: one or more
ASCII digits, optionally followed by whitespace and one trailing
letter. -/
def codeMatchCore (l : List Char) : Option (List Char) :=
  let ds := l.takeWhile Char.isDigit
  if ds = [] then none
  else
    let rest := l.drop ds.length
    let sp := rest.takeWhile isJsWhitespace
    let rest2 := rest.drop sp.length
    match rest2.head? with
    | some c => if isUnicodeLetter c then some (ds ++ sp ++ [c]) else some ds
    | none => some ds

/-- The primary regex `(?:\p{L}\s*)?\d+(?:\s*\p{L})?` matched at the
head of `l`.  The optional letter prefix is tried greedily; if the
digits then fail, the regex backtracks to the empty prefix (which can
only succeed when the position itself starts with a digit). -/
def codeMatchAt (l : List Char) : Option (List Char) :=
  match l with
  | [] => none
  | c :: cs =>
    if isUnicodeLetter c then
      let sp := cs.takeWhile isJsWhitespace
      let rest := cs.drop sp.length
      match codeMatchCore rest with
      | some m => some (c :: (sp ++ m))
      | none => codeMatchCore (c :: cs)
    else codeMatchCore (c :: cs)

/-- Leftmost match of the primary regex, as `String.prototype.match`
returns it. -/
def findCodeMatch : List Char → Option (List Char)
  | [] => none
  | c :: cs =>
    match codeMatchAt (c :: cs) with
    | some m => some m
    | none => findCodeMatch cs

/-- Split on `/[^0-9\p{L}]+/u` with empty tokens dropped
(`.filter(Boolean)`); `acc` accumulates the current token in reverse. -/
def splitTokensAux (acc : List Char) : List Char → List (List Char)
  | [] => if acc = [] then [] else [acc.reverse]
  | c :: cs =>
    if Char.isDigit c || isUnicodeLetter c then splitTokensAux (c :: acc) cs
    else if acc = [] then splitTokensAux [] cs
    else acc.reverse :: splitTokensAux [] cs

/-- The fallback token scan of `extractCodeToken`: return the first
token containing both a digit and a letter; otherwise remember the
first digit-bearing token and return it at the end.  `nf` is the
`numericFallback` variable (`[]` while unset). -/
def scanTokens : List (List Char) → List Char → List Char
  | [], nf => nf
  | t :: rest, nf =>
    if t.any Char.isDigit then
      if t.any isUnicodeLetter then t
      else if nf = [] then scanTokens rest t
      else scanTokens rest nf
    else scanTokens rest nf

/-- Model of `extractCodeToken` (content-script.js): first try the primary
regex and strip internal whitespace from the match; otherwise split
into alphanumeric tokens and scan them, preferring letter+digit tokens
over purely numeric ones. -/
def extractCodeToken (text : String) : String :=
  if text = "" then ""
  else
    match findCodeMatch text.toList with
    | some m => String.mk (m.filter (fun c => ¬ isJsWhitespace c))
    | none => String.mk (scanTokens (splitTokensAux [] text.toList) [])

/-! ## JavaScript values and string coercion -/

/-- A JSON-like JavaScript value, covering the shapes a structured
(JSON-LD) entry can take. -/
inductive JsValue where
  | str : String → JsValue
  | num : Int → JsValue
  | bool : Bool → JsValue
  | null : JsValue
  | arr : List JsValue → JsValue
  | obj : List (String × JsValue) → JsValue

mutual

/-- JavaScript `String(value)` coercion: plain objects print as
`"[object Object]"`, arrays join their elements with `","`. -/
def jsValueToString : JsValue → String
  | .str s => s
  | .num n => toString n
  | .bool b => cond b "true" "false"
  | .null => "null"
  | .arr xs => String.intercalate "," (jsArrayParts xs)
  | .obj _ => "[object Object]"

/-- Elements of an array being joined: `null` renders as the empty
string inside `Array.prototype.join`. -/
def jsArrayParts : List JsValue → List String
  | [] => []
  | .null :: rest => "" :: jsArrayParts rest
  | v :: rest => jsValueToString v :: jsArrayParts rest

end

/-- JavaScript truthiness of a value. -/
def jsTruthy : JsValue → Bool
  | .str s => s ≠ ""
  | .num n => n ≠ 0
  | .bool b => b
  | .null => false
  | .arr _ => true
  | .obj _ => true

/-- Property lookup `value.key` on an object (first field wins). -/
def getField (v : JsValue) (key : String) : Option JsValue :=
  match v with
  | .obj fields => (fields.find? (fun f => f.1 = key)).map (·.2)
  | _ => none

/-- Model of `a || b` on JavaScript strings. -/
def jsOrS (a b : String) : String := if a = "" then b else a

/-! ## Doctor-code candidate scan (content-script.js `extractDoctorCode`) -/

/-- Model of `extractDoctorCode`: build the ordered candidate list (the three
DOM code elements, given here as the already-extracted text of the
nodes that were present, then the truthy `identifier` field of each
structured entry), then return the first candidate whose normalised
text yields a code token; failing that, the first candidate with any
non-empty normalised text.  Note that each candidate is passed to
`normaliseText`, which string-coerces non-string values. -/
def extractDoctorCode (domCandidates : List String) (structuredEntries : List JsValue) :
    String :=
  let idCandidates : List JsValue := structuredEntries.filterMap (fun entry =>
    match getField entry "identifier" with
    | some v => if jsTruthy v then some v else none
    | none => none)
  let candidates : List JsValue := domCandidates.map JsValue.str ++ idCandidates
  let firstPass := candidates.findSome? (fun candidate =>
    let text := normaliseText (jsValueToString candidate)
    if text = "" then none
    else
      let parsed := extractCodeToken text
      if parsed = "" then none else some parsed)
  match firstPass with
  | some code => code
  | none =>
    ((candidates.findSome? (fun candidate =>
      let text := normaliseText (jsValueToString candidate)
      if text = "" then none else some text)).getD "")

/-! ## Deduplicating collectors
(`uniqueNormalisedList` in background.js, `createCollector` in
content-script.js: transform each value, drop falsy results,
deduplicate by `keyFn` applied to the transformed value). -/

def uniqueAux (transform key : String → String) : List String → List String → List String
  | [], _ => []
  | v :: rest, seen =>
    let t := transform v
    if t = "" then uniqueAux transform key rest seen
    else
      let k := key t
      if seen.contains k then uniqueAux transform key rest seen
      else t :: uniqueAux transform key rest (k :: seen)

def uniqueNormalisedList (transform key : String → String) (values : List String) :
    List String :=
  uniqueAux transform key values []

/-- Model of `toNormalisedList` (background.js): free-text dedup, the key being
the normalised text itself. -/
def toNormalisedList (values : List String) : List String :=
  uniqueNormalisedList normaliseText id values

/-- Model of `toNormalisedPhoneList` (background.js): keep normalised phone
text, dedup by `phoneKey`. -/
def toNormalisedPhoneList (values : List String) : List String :=
  uniqueNormalisedList normalisePhoneValue phoneKey values

/-! ## Offices -/

/-- A raw office candidate as consumed by `normaliseOfficeList`
(background.js): the `addresses`/`phones` fields hold an array when
present (`none` when absent), `address`/`phone` a single string, and
`city` a string (`""` when absent).  `collectValues` flattens the
array field and appends the singular field when non-null. -/
structure OfficeInput where
  city : String
  addresses : Option (List String)
  address : Option String
  phones : Option (List String)
  phone : Option String

/-- A normalised, stored office. -/
structure Office where
  city : String
  addresses : List String
  phones : List String
deriving Repr, DecidableEq

/-- The composite dedup key
`` `${city}||${addresses.join("||")}||${phones.join("||")}` `` of
`normaliseOfficeList`. -/
def officeKey (city : String) (addresses phones : List String) : String :=
  city ++ "||" ++ String.intercalate "||" addresses ++ "||" ++
    String.intercalate "||" phones

def normalisedOfficeCity (o : OfficeInput) : String := normaliseText o.city

def normalisedOfficeAddresses (o : OfficeInput) : List String :=
  toNormalisedList (o.addresses.getD [] ++ o.address.toList)

def normalisedOfficePhones (o : OfficeInput) : List String :=
  toNormalisedPhoneList (o.phones.getD [] ++ o.phone.toList)

/-- The loop body of `normaliseOfficeList` with its `seen` key set
made explicit. -/
def normaliseOfficeAux : List OfficeInput → List String → List Office
  | [], _ => []
  | o :: rest, seen =>
    let city := normalisedOfficeCity o
    let addresses := normalisedOfficeAddresses o
    let phones := normalisedOfficePhones o
    if city = "" ∧ addresses = [] ∧ phones = [] then normaliseOfficeAux rest seen
    else
      let key := officeKey city addresses phones
      if seen.contains key then normaliseOfficeAux rest seen
      else ⟨city, addresses, phones⟩ :: normaliseOfficeAux rest (key :: seen)

/-- Model of `normaliseOfficeList` (background.js): normalise each candidate,
discard entirely empty ones, deduplicate by the composite key. -/
def normaliseOfficeList (offices : List OfficeInput) : List Office :=
  normaliseOfficeAux offices []

/-- The key a stored office re-derives (used to state that stored
offices are pairwise distinct under the composite key). -/
def storedOfficeKey (o : Office) : String := officeKey o.city o.addresses o.phones

/-! ## `pushOffice` (content-script.js `collectOfficeAddresses`) -/

/-- Model of `normalisePhoneText` (content-script.js): normalise whitespace and
strip a known phone-label prefix `^(?:تلفن|شماره|call|phone)[:：\s-]*`
(the ASCII alternatives are case-insensitive). -/
def lowerAscii (c : Char) : Char :=
  if 'A' ≤ c ∧ c ≤ 'Z' then Char.ofNat (c.toNat + 32) else c

def matchesLabel (w : List Char) (l : List Char) : Bool :=
  (l.take w.length).map lowerAscii = w

def isLabelSeparator (c : Char) : Bool :=
  c = ':' || c.toNat = 0xFF1A || isJsWhitespace c || c = '-'

def stripPhoneLabel (l : List Char) : List Char :=
  let words := ["تلفن".toList, "شماره".toList, "call".toList, "phone".toList]
  match words.find? (fun w => matchesLabel w l) with
  | some w => (l.drop w.length).dropWhile isLabelSeparator
  | none => l

def normalisePhoneText (s : String) : String :=
  let cleaned := normaliseWhitespace s
  if cleaned = "" then "" else String.mk (stripPhoneLabel cleaned.toList)

/-- The `details` argument of `pushOffice`: `addresses`/`phones` are
used when they are arrays, otherwise the singular `address`/`phone`
field seeds a one-element list. -/
structure OfficeDetails where
  city : String
  addresses : Option (List String)
  address : Option String
  phones : Option (List String)
  phone : Option String

/-- The city collected by `pushOffice`: the `details.city` value (when
truthy) run through the city collector, then `values().find(Boolean)`
with `""` as fallback. -/
def pushOfficeCity (details : OfficeDetails) : String :=
  ((uniqueNormalisedList normaliseText id
    (if details.city ≠ "" then [details.city] else [])).find?
      (fun s => s ≠ "")).getD ""

/-- The addresses collected by `pushOffice`: the `addresses` array
when it is one, otherwise the singular `address` as a one-element
list, run through the address collector. -/
def pushOfficeAddresses (details : OfficeDetails) : List String :=
  uniqueNormalisedList normaliseText id
    (match details.addresses with
     | some l => l
     | none => details.address.toList)

/-- The phones collected by `pushOffice`, through the phone collector
(`normalisePhoneText` transform, `normalisePhoneKey` key). -/
def pushOfficePhones (details : OfficeDetails) : List String :=
  uniqueNormalisedList normalisePhoneText phoneKey
    (match details.phones with
     | some l => l
     | none => details.phone.toList)

/-- Model of `pushOffice` (content-script.js): normalise the candidate through
per-office collectors, discard it when city, addresses and phones are
all empty, and append it unless its composite key
(`[city, addresses.join("||"), phones.join("||")].join("@@")`) was
already seen.  The state is the office list paired with the shared
`officeSeen` key set. -/
def pushOffice (st : List Office × List String) (details : OfficeDetails) :
    List Office × List String :=
  let city := pushOfficeCity details
  let addresses := pushOfficeAddresses details
  let phones := pushOfficePhones details
  if city = "" ∧ addresses = [] ∧ phones = [] then st
  else
    let key := String.intercalate "@@"
      [city, String.intercalate "||" addresses, String.intercalate "||" phones]
    if st.2.contains key then st
    else (st.1 ++ [⟨city, addresses, phones⟩], key :: st.2)

/-! ## Doctor records (background.js `normaliseDoctorData`) -/

/-- Model of `cleanDoctorCode` (background.js): normalise the raw code text;
if any ASCII digits remain, keep only the digits, otherwise keep the
normalised text. -/
def cleanDoctorCode (rawValue : String) : String :=
  let text := normaliseText rawValue
  if text = "" then ""
  else
    let digits := String.mk (text.toList.filter Char.isDigit)
    if digits = "" then text else digits

/-- The raw data object returned by the content script (absent string
fields modelled as `""`, absent array fields as `none`). -/
structure DoctorData where
  name : String
  specialty : String
  code : String
  doctorCode : String
  city : String
  addresses : Option (List String)
  address : Option String
  phones : Option (List String)
  phone : Option String
  offices : List OfficeInput
  url : String

/-- The canonical record stored into `state.results`. -/
structure DoctorRecord where
  url : String
  name : String
  specialty : String
  code : String
  city : String
  address : List String
  phones : List String
  offices : List Office

/-- Model of `normaliseDoctorData` (background.js). -/
def normaliseDoctorData (data : DoctorData) (url : String) : DoctorRecord :=
  let offices := normaliseOfficeList data.offices
  let addresses := toNormalisedList
    (data.addresses.getD [] ++ data.address.toList ++ offices.flatMap (·.addresses))
  let phones := toNormalisedPhoneList
    (data.phones.getD [] ++ data.phone.toList ++ offices.flatMap (·.phones))
  let resolvedUrl := if url ≠ "" then url else data.url
  let resolvedCity := normaliseText
    (jsOrS data.city (((offices.find? (fun o => o.city ≠ "")).map (·.city)).getD ""))
  { url := resolvedUrl
    name := normaliseText data.name
    specialty := normaliseText data.specialty
    code := cleanDoctorCode (jsOrS data.code data.doctorCode)
    city := resolvedCity
    address := addresses
    phones := phones
    offices := offices }

/-- The empty data object substituted for a failed profile in
`processQueue` (`{name:"", specialty:"", code:"", city:"",
addresses:[], phones:[], offices:[]}`). -/
def emptyDoctorData : DoctorData :=
  { name := "", specialty := "", code := "", doctorCode := "", city := ""
    addresses := some [], address := none, phones := some [], phone := none
    offices := [], url := "" }

/-! ## Error list (background.js `recordError` / `clearError`) -/

structure ErrorEntry where
  url : String
  message : String
deriving Repr, DecidableEq

/-- Model of `clearError`: drop every entry whose url matches. -/
def clearError (errors : List ErrorEntry) (url : String) : List ErrorEntry :=
  errors.filter (fun e => e.url ≠ url)

/-- Model of `recordError`: a falsy message only clears; otherwise clear any
existing entry for the url and push the new one. -/
def recordError (errors : List ErrorEntry) (url message : String) : List ErrorEntry :=
  if message = "" then clearError errors url
  else clearError errors url ++ [⟨url, message⟩]

/-! ## CSV escaping (csv-export.js) -/

/-- Model of `/[",\n]/.test(str)`. -/
def hasCsvSpecial (l : List Char) : Bool :=
  l.any (fun c => c = '"' || c = ',' || c = '\n')

/-- Model of `str.replace(/"/g, '""')`. -/
def doubleQuotes (l : List Char) : List Char :=
  l.flatMap (fun c => if c = '"' then ['"', '"'] else [c])

/-- Model of `escapeCsvValue` (csv-export.js) applied to a string field:
`normaliseValue` on a plain string is `String.prototype.trim`; a value
containing a quote, comma or newline is wrapped in double quotes with
internal quotes doubled. -/
def escapeCsvValue (value : String) : String :=
  let str := jsTrim value
  if hasCsvSpecial str.toList then
    String.mk ('"' :: (doubleQuotes str.toList ++ ['"']))
  else str

/-- Undo the quote doubling of a quoted CSV field (what a CSV reader
does with the content between the outer quotes): each pair of
consecutive double quotes collapses to one. -/
def undoubleQuotes : List Char → List Char
  | [] => []
  | [c] => [c]
  | c :: d :: rest =>
    if c = '"' ∧ d = '"' then '"' :: undoubleQuotes rest
    else c :: undoubleQuotes (d :: rest)

/-- Re-splitting (unescaping) one emitted CSV field: a field starting
with a double quote has its outer quotes removed and its doubled
internal quotes collapsed; any other field is taken verbatim. -/
def csvUnescape (s : String) : String :=
  match s.toList with
  | '"' :: rest => String.mk (undoubleQuotes rest.dropLast)
  | l => String.mk l

/-! ## Work queue and retry loop (background.js
`scrapeDoctorProfileWithRetries` / `processQueue`) -/

/-- The browser-automation scrape call, abstracted as an oracle: for a
url and a (1-based) attempt number it either returns the raw profile
data or fails with an error message (`scrapeDoctorProfile` resolving
or throwing). -/
structure ScrapeEnv where
  scrape : String → Nat → Except String DoctorData

/-- Observable events of a run: one scrape attempt for a url, or a
suspension for a number of milliseconds. -/
inductive TraceEv where
  | attempt : String → Nat → TraceEv
  | wait : Nat → TraceEv
deriving Repr, DecidableEq

def TraceEv.isAttempt : TraceEv → Bool
  | .attempt _ _ => true
  | .wait _ => false

/-- The `for (attempt = 1; attempt <= attempts; ...)` loop of
`scrapeDoctorProfileWithRetries`: `attempt` is the current attempt
number, `remaining` the number of attempts still allowed (so the loop
starts with `remaining = attempts`).  On failure with attempts left it
waits `max(delayMs, 1000)` and retries; the final failure is
rethrown. -/
def retryGo (env : ScrapeEnv) (delayMs : Nat) (url : String) :
    Nat → Nat → Except String DoctorData × List TraceEv
  | _, 0 => (.error "Failed to scrape doctor profile after retries.", [])
  | attempt, remaining + 1 =>
    match env.scrape url attempt with
    | .ok d => (.ok d, [.attempt url attempt])
    | .error e =>
      if remaining = 0 then (.error e, [.attempt url attempt])
      else
        let next := retryGo env delayMs url (attempt + 1) remaining
        (next.1, .attempt url attempt :: .wait (max delayMs 1000) :: next.2)

/-- Model of `scrapeDoctorProfileWithRetries`: `attempts = Math.max(0,
maxRetries) + 1` (with `maxRetries : Nat` the clamp is the
identity). -/
def scrapeDoctorProfileWithRetries (env : ScrapeEnv) (delayMs maxRetries : Nat)
    (url : String) : Except String DoctorData × List TraceEv :=
  retryGo env delayMs url 1 (maxRetries + 1)

/-- A stored result: the normalised record plus the `error` field
(`null` on success, the failure message otherwise). -/
structure ResultRecord where
  record : DoctorRecord
  error : Option String

/-- The mutable scraping state, restricted to the fields `processQueue`
reads and writes. -/
structure QueueState where
  queue : List String
  currentIndex : Nat
  visited : List String
  results : List ResultRecord
  errors : List ErrorEntry
  lastDoctor : Option (String × String)
  stopRequested : Bool
  isScraping : Bool

/-- The scraping configuration (validated by `ensureDelay` /
`ensureRetries`, hence non-negative integers). -/
structure Config where
  delayMs : Nat
  maxRetries : Nat

/-- One iteration of the `while` loop of `processQueue`.  `none` means
the loop exits (loop condition false or stop requested); `some (s',
tr)` is the successor state together with the scrape attempts and
suspensions the iteration performed.  A falsy or already-visited url
is skipped with only the cursor advanced; otherwise the url is marked
visited and scraped with retries, a success appending the normalised
record (and clearing the url's error entry), a failure recording an
error entry and appending a placeholder record built from empty
data. -/
def processStep (env : ScrapeEnv) (cfg : Config) (s : QueueState) :
    Option (QueueState × List TraceEv) :=
  if ¬ (s.isScraping ∧ s.currentIndex < s.queue.length) then none
  else if s.stopRequested then none
  else
    let url := s.queue.getD s.currentIndex ""
    if url = "" then some ({ s with currentIndex := s.currentIndex + 1 }, [])
    else if s.visited.contains url then
      some ({ s with currentIndex := s.currentIndex + 1 }, [])
    else
      let visited' := url :: s.visited
      let scraped := scrapeDoctorProfileWithRetries env cfg.delayMs cfg.maxRetries url
      let afterDelay : List TraceEv :=
        if ¬ s.stopRequested ∧ s.currentIndex + 1 < s.queue.length ∧ 0 < cfg.delayMs
        then [.wait cfg.delayMs] else []
      match scraped with
      | (.ok d, tr) =>
        let data := normaliseDoctorData d url
        some ({ s with
                  visited := visited'
                  errors := clearError s.errors url
                  results := s.results ++ [⟨data, none⟩]
                  lastDoctor := some (jsOrS data.name (jsOrS data.url url),
                                      jsOrS data.url url)
                  currentIndex := s.currentIndex + 1 },
              tr ++ afterDelay)
      | (.error msg, tr) =>
        let message := if msg = "" then "Unknown error" else msg
        let fallbackData := normaliseDoctorData emptyDoctorData url
        some ({ s with
                  visited := visited'
                  errors := recordError s.errors url message
                  results := s.results ++ [⟨fallbackData, some message⟩]
                  lastDoctor := some ((jsOrS fallbackData.name
                                      (jsOrS fallbackData.url url)) ++ " (failed)",
                                      jsOrS fallbackData.url url)
                  currentIndex := s.currentIndex + 1 },
              tr ++ afterDelay)

/-- Iterating `processStep` with fuel.  Each iteration advances
`currentIndex` by exactly one and leaves `queue` unchanged, so
`s.queue.length - s.currentIndex` iterations always suffice; the fuel
only makes the recursion structural. -/
def runQueue (env : ScrapeEnv) (cfg : Config) : Nat → QueueState →
    QueueState × List TraceEv
  | 0, s => (s, [])
  | fuel + 1, s =>
    match processStep env cfg s with
    | none => (s, [])
    | some (s', tr) =>
      let rest := runQueue env cfg fuel s'
      (rest.1, tr ++ rest.2)

/-! ## Helper lemmas -/

theorem string_mk_toList (s : String) : String.mk s.toList = s := by
  obtain ⟨d⟩ := s
  rfl

theorem convertLocaleDigitChar_not_locale (c : Char) :
    isLocaleDigit (convertLocaleDigitChar c) = false := by
  unfold convertLocaleDigitChar
  repeat' split
  all_goals first
    | decide
    | (rename_i h1 h2 h3 h4 h5 h6 h7 h8 h9 h10
       simp only [isLocaleDigit, Bool.or_eq_false_iff, Bool.and_eq_false_iff,
         decide_eq_false_iff_not, not_le]
       omega)

theorem convertLocaleDigitChar_fix (c : Char) (h : isLocaleDigit c = false) :
    convertLocaleDigitChar c = c := by
  simp only [isLocaleDigit, Bool.or_eq_false_iff, Bool.and_eq_false_iff,
    decide_eq_false_iff_not, not_le] at h
  unfold convertLocaleDigitChar
  repeat' split
  all_goals first
    | rfl
    | (rename_i hcond; exfalso; rcases hcond with hc | hc <;> omega)

theorem convertLocaleDigitChar_idem (c : Char) :
    convertLocaleDigitChar (convertLocaleDigitChar c) = convertLocaleDigitChar c :=
  convertLocaleDigitChar_fix _ (convertLocaleDigitChar_not_locale c)

/-- The pairwise relation "no two adjacent whitespace characters". -/
def NoAdjWs (l : List Char) : Prop :=
  l.Chain' (fun a b => ¬(isJsWhitespace a = true ∧ isJsWhitespace b = true))

theorem mem_collapseWsAux {c : Char} :
    ∀ (l : List Char) (b : Bool), c ∈ collapseWsAux b l →
      c = ' ' ∨ (c ∈ l ∧ isJsWhitespace c = false)
  | [], _, h => by simp [collapseWsAux] at h
  | a :: l, b, h => by
    cases hws : isJsWhitespace a with
    | true =>
      cases b with
      | true =>
        simp only [collapseWsAux, hws, if_true] at h
        rcases mem_collapseWsAux l true h with h' | ⟨h1, h2⟩
        · exact Or.inl h'
        · exact Or.inr ⟨List.mem_cons_of_mem _ h1, h2⟩
      | false =>
        simp only [collapseWsAux, hws, if_true, Bool.false_eq_true, if_false,
          List.mem_cons] at h
        rcases h with h' | h'
        · exact Or.inl h'
        · rcases mem_collapseWsAux l true h' with h'' | ⟨h1, h2⟩
          · exact Or.inl h''
          · exact Or.inr ⟨List.mem_cons_of_mem _ h1, h2⟩
    | false =>
      simp only [collapseWsAux, hws, Bool.false_eq_true, if_false,
        List.mem_cons] at h
      rcases h with h' | h'
      · subst h'
        exact Or.inr ⟨List.mem_cons_self _ _, hws⟩
      · rcases mem_collapseWsAux l false h' with h'' | ⟨h1, h2⟩
        · exact Or.inl h''
        · exact Or.inr ⟨List.mem_cons_of_mem _ h1, h2⟩

theorem collapseWsAux_true_head_not_ws :
    ∀ (l : List Char) (c : Char), (collapseWsAux true l).head? = some c →
      isJsWhitespace c = false
  | [], c, h => by simp [collapseWsAux] at h
  | a :: l, c, h => by
    cases hws : isJsWhitespace a with
    | true =>
      simp only [collapseWsAux, hws, if_true] at h
      exact collapseWsAux_true_head_not_ws l c h
    | false =>
      simp only [collapseWsAux, hws, Bool.false_eq_true, if_false,
        List.head?_cons, Option.some.injEq] at h
      subst h
      exact hws

theorem noAdjWs_collapseWsAux : ∀ (l : List Char) (b : Bool), NoAdjWs (collapseWsAux b l)
  | [], _ => by simp [collapseWsAux, NoAdjWs]
  | a :: l, b => by
    cases hws : isJsWhitespace a with
    | true =>
      cases b with
      | true =>
        simpa only [collapseWsAux, hws, if_true] using noAdjWs_collapseWsAux l true
      | false =>
        simp only [collapseWsAux, hws, if_true, Bool.false_eq_true, if_false]
        rw [NoAdjWs, List.chain'_cons']
        refine ⟨fun y hy => ?_, noAdjWs_collapseWsAux l true⟩
        intro ⟨_, hy'⟩
        rw [collapseWsAux_true_head_not_ws l y (Option.mem_def.mp hy)] at hy'
        exact Bool.false_ne_true hy'
    | false =>
      simp only [collapseWsAux, hws, Bool.false_eq_true, if_false]
      rw [NoAdjWs, List.chain'_cons']
      refine ⟨fun y hy => ?_, noAdjWs_collapseWsAux l false⟩
      intro ⟨hy', _⟩
      rw [hws] at hy'
      exact Bool.false_ne_true hy'

theorem collapseWsAux_fixpoint :
    ∀ (l : List Char) (b : Bool),
      (∀ c ∈ l, isJsWhitespace c = true → c = ' ') → NoAdjWs l →
      (b = true → ∀ c, l.head? = some c → isJsWhitespace c = false) →
      collapseWsAux b l = l
  | [], _, _, _, _ => rfl
  | a :: l, b, hsp, hchain, hhead => by
    rw [NoAdjWs, List.chain'_cons'] at hchain
    cases hws : isJsWhitespace a with
    | true =>
      have hb : b = false := by
        cases b
        · rfl
        · exact absurd (hhead rfl a rfl) (by simp [hws])
      subst hb
      have ha : a = ' ' := hsp a (List.mem_cons_self _ _) hws
      simp only [collapseWsAux, hws, if_true, Bool.false_eq_true, if_false]
      rw [ha]
      congr 1
      exact collapseWsAux_fixpoint l true
        (fun c hc => hsp c (List.mem_cons_of_mem _ hc)) hchain.2
        (fun _ c hc => by
          have := hchain.1 c (Option.mem_def.mpr hc)
          by_contra hcontra
          rw [Bool.not_eq_false] at hcontra
          exact this ⟨hws, hcontra⟩)
    | false =>
      simp only [collapseWsAux, hws, Bool.false_eq_true, if_false]
      congr 1
      exact collapseWsAux_fixpoint l false
        (fun c hc => hsp c (List.mem_cons_of_mem _ hc)) hchain.2
        (fun hb => by cases hb)

theorem dropWhile_eq_self_of_head {p : Char → Bool} {l : List Char}
    (h : ∀ c, l.head? = some c → p c = false) : l.dropWhile p = l := by
  cases l with
  | nil => rfl
  | cons a l =>
    rw [List.dropWhile_cons_of_neg]
    simp [h a rfl]

theorem head_dropWhile_false {p : Char → Bool} {l : List Char} {c : Char}
    (hc : (l.dropWhile p).head? = some c) : p c = false := by
  have h := List.head?_dropWhile_not p l
  rw [hc] at h
  exact h

theorem dropWhile_idem (p : Char → Bool) (l : List Char) :
    (l.dropWhile p).dropWhile p = l.dropWhile p :=
  dropWhile_eq_self_of_head (fun _ hc => head_dropWhile_false hc)

theorem trimWsList_within (l : List Char) : trimWsList l <:+: l := by
  unfold trimWsList
  have h1 : (l.dropWhile isJsWhitespace).reverse.dropWhile isJsWhitespace <:+
      (l.dropWhile isJsWhitespace).reverse := List.dropWhile_suffix _
  have h2 :
      ((l.dropWhile isJsWhitespace).reverse.dropWhile isJsWhitespace).reverse <+:
      l.dropWhile isJsWhitespace := by
    have h2 := List.reverse_prefix.mpr h1
    rwa [List.reverse_reverse] at h2
  exact h2.isInfix.trans (List.dropWhile_suffix _).isInfix

theorem mem_trimWsList {c : Char} {l : List Char} (h : c ∈ trimWsList l) : c ∈ l :=
  (trimWsList_within l).sublist.mem h

theorem noAdjWs_trimWsList {l : List Char} (h : NoAdjWs l) : NoAdjWs (trimWsList l) :=
  List.Chain'.infix h (trimWsList_within l)

theorem trimWsList_head_not_ws (l : List Char) :
    ∀ c, (trimWsList l).head? = some c → isJsWhitespace c = false := by
  intro c hc
  unfold trimWsList at hc
  rw [List.head?_reverse] at hc
  rcases hu : (l.dropWhile isJsWhitespace).reverse.dropWhile isJsWhitespace with
    _ | ⟨a, u'⟩
  · rw [hu] at hc
    simp at hc
  · rw [hu] at hc
    obtain ⟨w, hw⟩ :=
      List.dropWhile_suffix (l := (l.dropWhile isJsWhitespace).reverse) isJsWhitespace
    rw [hu] at hw
    have hlast : (l.dropWhile isJsWhitespace).reverse.getLast? = some c := by
      rw [← hw, List.getLast?_append, hc]
      rfl
    rw [List.getLast?_reverse] at hlast
    exact head_dropWhile_false hlast

theorem trimWsList_idem (l : List Char) : trimWsList (trimWsList l) = trimWsList l := by
  have h1 : (trimWsList l).dropWhile isJsWhitespace = trimWsList l :=
    dropWhile_eq_self_of_head (trimWsList_head_not_ws l)
  show (((trimWsList l).dropWhile isJsWhitespace).reverse.dropWhile
    isJsWhitespace).reverse = trimWsList l
  rw [h1]
  rw [show trimWsList l =
    ((l.dropWhile isJsWhitespace).reverse.dropWhile isJsWhitespace).reverse from rfl]
  rw [List.reverse_reverse, dropWhile_idem]

/-- Every character of the output of the normaliser pipeline is a
space or a locale-converted input character that is not whitespace and
not a zero-width non-joiner. -/
theorem mem_normaliseWhitespace {s : String} {c : Char}
    (h : c ∈ (normaliseWhitespace s).toList) :
    c = ' ' ∨ (c ∈ s.toList.map convertLocaleDigitChar ∧
      isJsWhitespace c = false ∧ c ≠ zwnj) := by
  have h' : c ∈ trimWsList (collapseWs
      ((s.toList.map convertLocaleDigitChar).filter (fun c => c ≠ zwnj))) := h
  rcases mem_collapseWsAux _ _ (mem_trimWsList h') with h'' | ⟨hmem, hws⟩
  · exact Or.inl h''
  · obtain ⟨hmem', hz⟩ := List.mem_filter.mp hmem
    exact Or.inr ⟨hmem', hws, by simpa using hz⟩

theorem normaliseWhitespace_idem (s : String) :
    normaliseWhitespace (normaliseWhitespace s) = normaliseWhitespace s := by
  have hfix : ∀ c ∈ (normaliseWhitespace s).toList, convertLocaleDigitChar c = c := by
    intro c hc
    rcases mem_normaliseWhitespace hc with h | ⟨hmem, _, _⟩
    · subst h
      decide
    · obtain ⟨x, _, hx⟩ := List.mem_map.mp hmem
      rw [← hx]
      exact convertLocaleDigitChar_idem x
  have hnz : ∀ c ∈ (normaliseWhitespace s).toList, c ≠ zwnj := by
    intro c hc
    rcases mem_normaliseWhitespace hc with h | ⟨_, _, hz⟩
    · subst h
      decide
    · exact hz
  have hsp : ∀ c ∈ (normaliseWhitespace s).toList,
      isJsWhitespace c = true → c = ' ' := by
    intro c hc hw
    rcases mem_normaliseWhitespace hc with h | ⟨_, hws, _⟩
    · exact h
    · rw [hw] at hws
      exact absurd hws (by simp)
  have hmap : (normaliseWhitespace s).toList.map convertLocaleDigitChar =
      (normaliseWhitespace s).toList := by
    rw [List.map_congr_left hfix]
    exact List.map_id _
  have hfil : (normaliseWhitespace s).toList.filter (fun c => c ≠ zwnj) =
      (normaliseWhitespace s).toList := by
    rw [List.filter_eq_self]
    intro a ha
    simpa using hnz a ha
  have hchain : NoAdjWs (normaliseWhitespace s).toList :=
    noAdjWs_trimWsList (noAdjWs_collapseWsAux _ false)
  have hcollapse : collapseWs (normaliseWhitespace s).toList =
      (normaliseWhitespace s).toList :=
    collapseWsAux_fixpoint _ false hsp hchain (fun hb => by cases hb)
  have htrim : trimWsList (normaliseWhitespace s).toList =
      (normaliseWhitespace s).toList :=
    trimWsList_idem _
  show String.mk (trimWsList (collapseWs
      (((normaliseWhitespace s).toList.map convertLocaleDigitChar).filter
        (fun c => c ≠ zwnj)))) = normaliseWhitespace s
  rw [hmap, hfil, hcollapse, htrim, string_mk_toList]

theorem doubleQuotes_eq_nil {l : List Char} (h : doubleQuotes l = []) : l = [] := by
  cases l with
  | nil => rfl
  | cons a l =>
    exfalso
    by_cases ha : a = '"' <;> simp [doubleQuotes, ha] at h

theorem undoubleQuotes_doubleQuotes : ∀ l : List Char,
    undoubleQuotes (doubleQuotes l) = l
  | [] => by simp [doubleQuotes, undoubleQuotes]
  | c :: rest => by
    by_cases hc : c = '"'
    · subst hc
      have h : doubleQuotes ('"' :: rest) = '"' :: '"' :: doubleQuotes rest := by
        simp [doubleQuotes]
      rw [h]
      have h2 : undoubleQuotes ('"' :: '"' :: doubleQuotes rest) =
          '"' :: undoubleQuotes (doubleQuotes rest) := by
        simp [undoubleQuotes]
      rw [h2, undoubleQuotes_doubleQuotes rest]
    · have h : doubleQuotes (c :: rest) = c :: doubleQuotes rest := by
        simp [doubleQuotes, hc]
      rw [h]
      cases hdq : doubleQuotes rest with
      | nil =>
        rw [doubleQuotes_eq_nil hdq]
        simp [undoubleQuotes]
      | cons d ds =>
        have h2 : undoubleQuotes (c :: d :: ds) = c :: undoubleQuotes (d :: ds) := by
          simp [undoubleQuotes, hc]
        rw [h2, ← hdq, undoubleQuotes_doubleQuotes rest]

theorem clearError_url_ne (errors : List ErrorEntry) (url : String) :
    ∀ e ∈ clearError errors url, e.url ≠ url := by
  intro e he
  have := List.of_mem_filter he
  simpa using this

theorem recordError_filter (errors : List ErrorEntry) (url msg : String) :
    (recordError errors url msg).filter (fun e => e.url = url) =
      if msg = "" then [] else [⟨url, msg⟩] := by
  by_cases hm : msg = ""
  · rw [if_pos hm]
    unfold recordError
    rw [if_pos hm, List.filter_eq_nil_iff]
    intro e he
    simpa using clearError_url_ne errors url e he
  · rw [if_neg hm]
    unfold recordError
    rw [if_neg hm, List.filter_append]
    have h1 : (clearError errors url).filter (fun e => e.url = url) = [] := by
      rw [List.filter_eq_nil_iff]
      intro e he
      simpa using clearError_url_ne errors url e he
    rw [h1]
    simp

theorem clearError_nodup {errors : List ErrorEntry} (url : String)
    (h : (errors.map (·.url)).Nodup) :
    ((clearError errors url).map (·.url)).Nodup :=
  ((List.filter_sublist errors).map (·.url)).nodup h

theorem recordError_nodup {errors : List ErrorEntry} (url msg : String)
    (h : (errors.map (·.url)).Nodup) :
    ((recordError errors url msg).map (·.url)).Nodup := by
  unfold recordError
  by_cases hm : msg = ""
  · rw [if_pos hm]
    exact clearError_nodup url h
  · rw [if_neg hm, List.map_append]
    rw [List.nodup_append]
    refine ⟨clearError_nodup url h, by simp, ?_⟩
    intro a ha hb
    simp only [List.map_cons, List.map_nil, List.mem_cons, List.not_mem_nil,
      or_false] at hb
    obtain ⟨e, he, heq⟩ := List.mem_map.mp ha
    exact clearError_url_ne errors url e he (heq.trans hb)

/-- Inversion of one `processQueue` iteration: the guards that had to
hold for the loop body to run, the fields every branch updates the
same way, and the branch split between a skipped entry (falsy or
already-visited url) and a fully processed one. -/
theorem processStep_inv {env : ScrapeEnv} {cfg : Config} {s s' : QueueState}
    {tr : List TraceEv} (h : processStep env cfg s = some (s', tr)) :
    s.isScraping = true ∧ s.currentIndex < s.queue.length ∧
    s.stopRequested = false ∧
    s'.queue = s.queue ∧ s'.currentIndex = s.currentIndex + 1 ∧
    s'.isScraping = s.isScraping ∧ s'.stopRequested = s.stopRequested ∧
    ((s' = { s with currentIndex := s.currentIndex + 1 } ∧ tr = [] ∧
       (s.queue.getD s.currentIndex "" = "" ∨
        s.visited.contains (s.queue.getD s.currentIndex "") = true)) ∨
     (s.queue.getD s.currentIndex "" ≠ "" ∧
      s.visited.contains (s.queue.getD s.currentIndex "") = false ∧
      s'.visited = s.queue.getD s.currentIndex "" :: s.visited ∧
      (∃ r : ResultRecord, r.record.url = s.queue.getD s.currentIndex "" ∧
        s'.results = s.results ++ [r]) ∧
      (s'.errors = clearError s.errors (s.queue.getD s.currentIndex "") ∨
       ∃ msg, s'.errors =
         recordError s.errors (s.queue.getD s.currentIndex "") msg))) := by
  simp only [processStep] at h
  split at h
  · exact absurd h (by simp)
  · next hguard =>
    rw [not_not] at hguard
    obtain ⟨hscr, hlt⟩ := hguard
    split at h
    · exact absurd h (by simp)
    · next hstop =>
      rw [Bool.not_eq_true] at hstop
      refine ⟨hscr, hlt, hstop, ?_⟩
      split at h
      · next hurl =>
        rw [Option.some.injEq, Prod.mk.injEq] at h
        obtain ⟨hs', htr⟩ := h
        subst hs'
        subst htr
        exact ⟨rfl, rfl, rfl, rfl, Or.inl ⟨rfl, rfl, Or.inl hurl⟩⟩
      · next hurl =>
        split at h
        · next hvis =>
          rw [Option.some.injEq, Prod.mk.injEq] at h
          obtain ⟨hs', htr⟩ := h
          subst hs'
          subst htr
          exact ⟨rfl, rfl, rfl, rfl, Or.inl ⟨rfl, rfl, Or.inr hvis⟩⟩
        · next hvis =>
          rw [Bool.not_eq_true] at hvis
          split at h
          · next d tr' heq =>
            rw [Option.some.injEq, Prod.mk.injEq] at h
            obtain ⟨hs', htr⟩ := h
            subst hs'
            subst htr
            refine ⟨rfl, rfl, rfl, rfl, Or.inr ⟨hurl, hvis, rfl, ?_, Or.inl rfl⟩⟩
            refine ⟨⟨normaliseDoctorData d (s.queue.getD s.currentIndex ""), none⟩,
              ?_, rfl⟩
            simp only [normaliseDoctorData]
            rw [if_pos hurl]
          · next msg tr' heq =>
            rw [Option.some.injEq, Prod.mk.injEq] at h
            obtain ⟨hs', htr⟩ := h
            subst hs'
            subst htr
            refine ⟨rfl, rfl, rfl, rfl, Or.inr ⟨hurl, hvis, rfl, ?_, Or.inr ⟨_, rfl⟩⟩⟩
            refine ⟨⟨normaliseDoctorData emptyDoctorData
              (s.queue.getD s.currentIndex ""),
              some (if msg = "" then "Unknown error" else msg)⟩, ?_, rfl⟩
            simp only [normaliseDoctorData]
            rw [if_pos hurl]

/-! ## Claim theorems -/

/-- C3: for the input `"کد نظام پزشکی: ف ۱۲۳۴۵"` after text
normalisation (locale digits converted to ASCII), `extractCodeToken`
returns `"ف12345"`: the primary regex fires on the letter prefix and
the digits, the internal whitespace is removed, and the alphabetic
prefix attached to the numeric id is preserved. -/
theorem extractCodeToken_preserves_letter_prefix :
    normaliseText "کد نظام پزشکی: ف ۱۲۳۴۵" = "کد نظام پزشکی: ف 12345" ∧
    extractCodeToken (normaliseText "کد نظام پزشکی: ف ۱۲۳۴۵") = "ف12345" := by
  constructor <;> decide

/-- C1: `extractDoctorCode` on a structured entry whose `identifier`
is the key-value object `{name: "Medical Council", value: "م 67890"}`
(the repository's own test input) does not return `"م67890"`: the
object candidate is string-coerced by `normaliseText` to
`"[object Object]"` and its nested values are never scanned, so the
whole extraction returns `"[object Object]"`. -/
theorem extractDoctorCode_object_identifier_not_scanned :
    extractDoctorCode []
      [JsValue.obj [("@type", JsValue.str "Person"),
        ("identifier", JsValue.obj [("@type", JsValue.str "PropertyValue"),
          ("name", JsValue.str "Medical Council"),
          ("value", JsValue.str "م 67890")])]] = "[object Object]" ∧
    "[object Object]" ≠ "م67890" := by
  constructor <;> decide

/-- C8: the text normaliser maps every character of both supported
locale decimal-digit alphabets (Eastern Arabic U+0660–U+0669 and
Persian U+06F0–U+06F9, shown here digit by digit) to its ASCII
equivalent, no locale digit ever survives normalisation, and the
normaliser is idempotent. -/
theorem normaliseText_locale_digits_and_idempotent :
    (normaliseText "۰۱۲۳۴۵۶۷۸۹" = "0123456789" ∧
     normaliseText "٠١٢٣٤٥٦٧٨٩" = "0123456789") ∧
    (∀ (s : String) (c : Char), c ∈ (normaliseText s).toList →
      isLocaleDigit c = false) ∧
    (∀ s : String, normaliseText (normaliseText s) = normaliseText s) := by
  refine ⟨⟨by decide, by decide⟩, fun s c hc => ?_, normaliseWhitespace_idem⟩
  rcases mem_normaliseWhitespace hc with h | ⟨hmem, _, _⟩
  · subst h
    decide
  · obtain ⟨x, _, hx⟩ := List.mem_map.mp hmem
    rw [← hx]
    exact convertLocaleDigitChar_not_locale x

/-- C8 witness: the no-locale-digit part applied to the concrete
input `"۱"`, whose normalised form is `"1"`. -/
theorem normaliseText_locale_digits_and_idempotent_witness :
    '1' ∈ (normaliseText "۱").toList ∧ isLocaleDigit '1' = false :=
  ⟨by decide,
    normaliseText_locale_digits_and_idempotent.2.1 "۱" '1' (by decide)⟩

/-- C9: every CSV field value whose normalised form contains a comma,
double quote or newline is emitted wrapped in double quotes with each
internal double quote doubled, and unescaping the emitted field always
returns the normalised (trimmed) original string. -/
theorem escapeCsvValue_round_trip :
    ∀ s : String,
      (hasCsvSpecial (jsTrim s).toList = true →
        escapeCsvValue s =
          String.mk ('"' :: (doubleQuotes (jsTrim s).toList ++ ['"']))) ∧
      csvUnescape (escapeCsvValue s) = jsTrim s := by
  intro s
  by_cases hsp : hasCsvSpecial (jsTrim s).toList = true
  · have he : escapeCsvValue s =
        String.mk ('"' :: (doubleQuotes (jsTrim s).toList ++ ['"'])) := by
      simp only [escapeCsvValue]
      rw [if_pos hsp]
    refine ⟨fun _ => he, ?_⟩
    rw [he]
    show String.mk (undoubleQuotes
      ((doubleQuotes (jsTrim s).toList ++ ['"']).dropLast)) = jsTrim s
    rw [List.dropLast_concat, undoubleQuotes_doubleQuotes]
    exact string_mk_toList _
  · refine ⟨fun h => absurd h hsp, ?_⟩
    have he : escapeCsvValue s = jsTrim s := by
      simp only [escapeCsvValue]
      rw [if_neg hsp]
    rw [he]
    have hq : ∀ c ∈ (jsTrim s).toList, c ≠ '"' := by
      intro c hc hcq
      apply hsp
      simp only [hasCsvSpecial, List.any_eq_true]
      exact ⟨c, hc, by simp [hcq]⟩
    unfold csvUnescape
    split
    · next rest heq =>
      exfalso
      exact hq '"' (by rw [heq]; exact List.mem_cons_self _ _) rfl
    · next => exact string_mk_toList _

/-- C9 witness: the quoting shape and the round trip at the concrete
field value `"a,b\"c"`, which contains both a comma and a quote. -/
theorem escapeCsvValue_round_trip_witness :
    hasCsvSpecial (jsTrim "a,b\"c").toList = true ∧
    escapeCsvValue "a,b\"c" =
      String.mk ('"' :: (doubleQuotes (jsTrim "a,b\"c").toList ++ ['"'])) ∧
    csvUnescape (escapeCsvValue "a,b\"c") = jsTrim "a,b\"c" :=
  ⟨by decide, (escapeCsvValue_round_trip "a,b\"c").1 (by decide),
    (escapeCsvValue_round_trip "a,b\"c").2⟩

/-- C2 (counterexample): the phone inputs `"021-12345678"` and
`"+98 21 12345678"` do not normalise to the same key under the phone
key function — the keys are `"02112345678"` and `"+982112345678"` —
and the deduplicated phone list therefore retains both entries, not
one. -/
theorem phone_dedup_country_code_counterexample :
    phoneKey (normalisePhoneValue "021-12345678") = "02112345678" ∧
    phoneKey (normalisePhoneValue "+98 21 12345678") = "+982112345678" ∧
    phoneKey (normalisePhoneValue "021-12345678") ≠
      phoneKey (normalisePhoneValue "+98 21 12345678") ∧
    toNormalisedPhoneList ["021-12345678", "+98 21 12345678"] =
      ["021-12345678", "+98 21 12345678"] := by
  refine ⟨by decide, by decide, by decide, by decide⟩

/-- C2 (amended): the two inputs map to different keys and are both
retained; what does collapse to one first-seen entry is any pair of
inputs whose normalised forms share the same stripped digit key, such
as `"021-12345678"` and `"021 1234 5678"`. -/
theorem phone_dedup_same_key_first_seen :
    (∀ a b : String, normalisePhoneValue a ≠ "" →
      phoneKey (normalisePhoneValue a) = phoneKey (normalisePhoneValue b) →
      toNormalisedPhoneList [a, b] = [normalisePhoneValue a]) ∧
    toNormalisedPhoneList ["021-12345678", "021 1234 5678"] = ["021-12345678"] := by
  constructor
  · intro a b ha hkey
    simp only [toNormalisedPhoneList, uniqueNormalisedList, uniqueAux]
    rw [if_neg ha]
    by_cases hb : normalisePhoneValue b = ""
    · simp [hb]
    · simp [hb, hkey]
  · decide

/-- C2 witness: the general first-seen collapse applied to the
formatting variants `"021-12345678"` and `"021 1234 5678"`. -/
theorem phone_dedup_same_key_first_seen_witness :
    normalisePhoneValue "021-12345678" ≠ "" ∧
    phoneKey (normalisePhoneValue "021-12345678") =
      phoneKey (normalisePhoneValue "021 1234 5678") ∧
    toNormalisedPhoneList ["021-12345678", "021 1234 5678"] =
      [normalisePhoneValue "021-12345678"] :=
  ⟨by decide, by decide,
    phone_dedup_same_key_first_seen.1 "021-12345678" "021 1234 5678"
      (by decide) (by decide)⟩

/-- C4: at the `DoctorRecord` boundary the stored code field is
`cleanDoctorCode` of the raw code, and `cleanDoctorCode` keeps only
the ASCII digits of the normalised text whenever at least one digit is
present, dropping every letter (including a council-letter prefix);
only a digit-free normalised text is stored verbatim. -/
theorem cleanDoctorCode_keeps_only_digits :
    (∀ (data : DoctorData) (url : String),
      (normaliseDoctorData data url).code =
        cleanDoctorCode (jsOrS data.code data.doctorCode)) ∧
    (∀ raw : String,
      ((normaliseText raw).toList.any Char.isDigit = true →
        cleanDoctorCode raw =
          String.mk ((normaliseText raw).toList.filter Char.isDigit)) ∧
      ((normaliseText raw).toList.any Char.isDigit = false →
        cleanDoctorCode raw = normaliseText raw)) := by
  refine ⟨fun data url => rfl, fun raw => ⟨fun hdig => ?_, fun hnone => ?_⟩⟩
  · have htext : normaliseText raw ≠ "" := by
      intro h
      rw [h] at hdig
      simp at hdig
    simp only [cleanDoctorCode]
    rw [if_neg htext]
    have : String.mk ((normaliseText raw).toList.filter Char.isDigit) ≠ "" := by
      intro h
      have hfil : (normaliseText raw).toList.filter Char.isDigit = [] := by
        have := congrArg String.toList h
        simpa using this
      rw [List.filter_eq_nil_iff] at hfil
      rw [List.any_eq_true] at hdig
      obtain ⟨c, hc, hcd⟩ := hdig
      exact hfil c hc hcd
    rw [if_neg this]
  · have hfil : (normaliseText raw).toList.filter Char.isDigit = [] := by
      rw [List.filter_eq_nil_iff]
      rw [List.any_eq_false] at hnone
      exact fun a ha => hnone a ha
    simp only [cleanDoctorCode, hfil]
    split
    · next h => exact h.symm
    · next h => simp

/-- C4 witness: for `"کد م 123"` the normalised text contains digits
and the stored code is the digits `"123"`; applied at a concrete
record boundary as well. -/
theorem cleanDoctorCode_keeps_only_digits_witness :
    (normaliseText "کد م 123").toList.any Char.isDigit = true ∧
    cleanDoctorCode "کد م 123" =
      String.mk ((normaliseText "کد م 123").toList.filter Char.isDigit) :=
  ⟨by decide, (cleanDoctorCode_keeps_only_digits.2 "کد م 123").1 (by decide)⟩

/-- C10: the error list holds at most one live entry per url: an
entry surviving `clearError` never carries the cleared url, recording
an error leaves exactly one (or, for a falsy message, zero) entries
for its url, both operations preserve pairwise-distinct urls, and so
does every iteration of the queue loop. -/
theorem error_list_at_most_one_entry_per_url :
    (∀ (errors : List ErrorEntry) (url : String),
      ∀ e ∈ clearError errors url, e.url ≠ url) ∧
    (∀ (errors : List ErrorEntry) (url msg : String),
      (recordError errors url msg).filter (fun e => e.url = url) =
        if msg = "" then [] else [⟨url, msg⟩]) ∧
    (∀ (errors : List ErrorEntry) (url msg : String),
      (errors.map (·.url)).Nodup →
      ((clearError errors url).map (·.url)).Nodup ∧
      ((recordError errors url msg).map (·.url)).Nodup) ∧
    (∀ (env : ScrapeEnv) (cfg : Config) (s s' : QueueState) (tr : List TraceEv),
      processStep env cfg s = some (s', tr) →
      (s.errors.map (·.url)).Nodup → (s'.errors.map (·.url)).Nodup) := by
  refine ⟨clearError_url_ne, recordError_filter,
    fun errors url msg h => ⟨clearError_nodup url h, recordError_nodup url msg h⟩,
    fun env cfg s s' tr h hnd => ?_⟩
  rcases (processStep_inv h).2.2.2.2.2.2.2 with ⟨hs', _, _⟩ | ⟨_, _, _, _, herr⟩
  · rw [hs']
    exact hnd
  · rcases herr with herr | ⟨msg, herr⟩
    · rw [herr]
      exact clearError_nodup _ hnd
    · rw [herr]
      exact recordError_nodup _ _ hnd

/-- C10 witness: the filter shape of `recordError` applied at a
concrete error list that already holds a stale entry for the url. -/
theorem error_list_at_most_one_entry_per_url_witness :
    (recordError [⟨"u", "old"⟩, ⟨"v", "x"⟩] "u" "new").filter
      (fun e => e.url = "u") =
      if ("new" : String) = "" then [] else [⟨"u", "new"⟩] :=
  error_list_at_most_one_entry_per_url.2.1 [⟨"u", "old"⟩, ⟨"v", "x"⟩] "u" "new"

/-- A helper: a `contains`-negative list does not hold the element. -/
theorem contains_false_not_mem {l : List String} {a : String}
    (h : l.contains a = false) : a ∉ l := by
  intro hmem
  rw [show l.contains a = l.elem a from rfl, List.elem_eq_mem] at h
  simp [hmem] at h

/-- The invariant tying the accumulated results to the visited set:
every stored record carries a visited url and no two records share a
url. -/
def ResultsDistinct (s : QueueState) : Prop :=
  (∀ r ∈ s.results, r.record.url ∈ s.visited) ∧
  (s.results.map (·.record.url)).Nodup

theorem processStep_resultsDistinct {env : ScrapeEnv} {cfg : Config}
    {s s' : QueueState} {tr : List TraceEv}
    (h : processStep env cfg s = some (s', tr)) (hd : ResultsDistinct s) :
    ResultsDistinct s' := by
  rcases (processStep_inv h).2.2.2.2.2.2.2 with ⟨hs', _, _⟩ |
    ⟨_, hvis, hvis', ⟨r, hrurl, hres⟩, _⟩
  · rw [hs']
    exact hd
  · constructor
    · intro r' hr'
      rw [hres] at hr'
      rw [hvis']
      rcases List.mem_append.mp hr' with hold | hnew
      · exact List.mem_cons_of_mem _ (hd.1 r' hold)
      · rw [List.mem_singleton.mp hnew, hrurl]
        exact List.mem_cons_self _ _
    · rw [hres, List.map_append, List.nodup_append]
      refine ⟨hd.2, by simp, ?_⟩
      intro a ha hb
      simp only [List.map_cons, List.map_nil, List.mem_cons, List.not_mem_nil,
        or_false] at hb
      obtain ⟨r', hr', heq⟩ := List.mem_map.mp ha
      have hmem : a ∈ s.visited := heq ▸ hd.1 r' hr'
      rw [hb, hrurl] at hmem
      exact contains_false_not_mem hvis hmem

theorem runQueue_resultsDistinct (env : ScrapeEnv) (cfg : Config) :
    ∀ (fuel : Nat) (s : QueueState),
      s.currentIndex ≤ (runQueue env cfg fuel s).1.currentIndex ∧
      (∀ u ∈ s.visited, u ∈ (runQueue env cfg fuel s).1.visited) ∧
      (ResultsDistinct s → ResultsDistinct (runQueue env cfg fuel s).1)
  | 0, s => ⟨Nat.le_refl _, fun _ hu => hu, fun hd => hd⟩
  | fuel + 1, s => by
    rcases hstep : processStep env cfg s with _ | ⟨s', tr⟩
    · simp only [runQueue, hstep]
      exact ⟨Nat.le_refl _, fun _ hu => hu, fun hd => hd⟩
    · simp only [runQueue, hstep]
      obtain ⟨hle, hvis, hd⟩ := runQueue_resultsDistinct env cfg fuel s'
      have hinv := processStep_inv hstep
      refine ⟨?_, ?_, ?_⟩
      · calc s.currentIndex ≤ s'.currentIndex := by
              rw [hinv.2.2.2.2.1]; exact Nat.le_succ _
          _ ≤ _ := hle
      · intro u hu
        apply hvis
        rcases hinv.2.2.2.2.2.2.2 with ⟨hs', _, _⟩ | ⟨_, _, hvis', _, _⟩
        · rw [hs']
          exact hu
        · rw [hvis']
          exact List.mem_cons_of_mem _ hu
      · intro hds
        exact hd (processStep_resultsDistinct hstep hds)

/-- C6: the cursor strictly advances and the visited set only grows on
every iteration of the queue loop; an entry whose url is already
visited is skipped, contributing no result, no scrape attempt and no
visited-set change; consequently the urls of the accumulated results
stay pairwise distinct (at most one result per distinct url), both for
a single iteration and along any whole run of the loop. -/
theorem queue_cursor_visited_monotone_and_idempotent :
    (∀ (env : ScrapeEnv) (cfg : Config) (s s' : QueueState) (tr : List TraceEv),
      processStep env cfg s = some (s', tr) →
      s.currentIndex < s'.currentIndex ∧
      (∀ u ∈ s.visited, u ∈ s'.visited) ∧
      (s.visited.contains (s.queue.getD s.currentIndex "") = true →
        s'.results = s.results ∧ tr = [] ∧ s'.visited = s.visited) ∧
      (ResultsDistinct s → ResultsDistinct s')) ∧
    (∀ (env : ScrapeEnv) (cfg : Config) (fuel : Nat) (s : QueueState),
      s.currentIndex ≤ (runQueue env cfg fuel s).1.currentIndex ∧
      (∀ u ∈ s.visited, u ∈ (runQueue env cfg fuel s).1.visited) ∧
      (ResultsDistinct s → ResultsDistinct (runQueue env cfg fuel s).1)) := by
  refine ⟨fun env cfg s s' tr h => ?_,
    fun env cfg fuel s => runQueue_resultsDistinct env cfg fuel s⟩
  have hinv := processStep_inv h
  refine ⟨by rw [hinv.2.2.2.2.1]; exact Nat.lt_succ_self _, ?_, ?_,
    processStep_resultsDistinct h⟩
  · intro u hu
    rcases hinv.2.2.2.2.2.2.2 with ⟨hs', _, _⟩ | ⟨_, _, hvis', _, _⟩
    · rw [hs']
      exact hu
    · rw [hvis']
      exact List.mem_cons_of_mem _ hu
  · intro hcont
    rcases hinv.2.2.2.2.2.2.2 with ⟨hs', htr, _⟩ | ⟨_, hvis, _, _, _⟩
    · rw [hs', htr]
      exact ⟨rfl, rfl, rfl⟩
    · rw [hcont] at hvis
      exact absurd hvis (by simp)

/-- An always-failing scrape oracle used for the concrete instances. -/
def qEnv : ScrapeEnv := ⟨fun _ _ => Except.error "boom"⟩

/-- The configuration `delayMs = 0`, `maxRetries = 2` used for the
concrete instances. -/
def qCfg : Config := ⟨0, 2⟩

/-- A state whose cursor points at an already-visited url. -/
def qSkipState : QueueState :=
  ⟨["https://nobat.ir/dr/1"], 0, ["https://nobat.ir/dr/1"], [], [], none,
    false, true⟩

/-- C6 witness: a concrete state whose cursor points at an
already-visited url is skipped without touching results, trace or the
visited set. -/
theorem queue_cursor_visited_monotone_and_idempotent_witness :
    ∃ s' tr, processStep qEnv qCfg qSkipState = some (s', tr) ∧
      s'.results = qSkipState.results ∧ tr = [] ∧
      s'.visited = qSkipState.visited := by
  have h : processStep qEnv qCfg qSkipState =
      some ({ qSkipState with currentIndex := 1 }, []) := rfl
  exact ⟨_, _, h, (queue_cursor_visited_monotone_and_idempotent.1 qEnv qCfg
    qSkipState _ _ h).2.2.1 (by decide)⟩

theorem retryGo_succ (env : ScrapeEnv) (d : Nat) (url : String)
    (attempt r : Nat) :
    retryGo env d url attempt (r + 1) =
      match env.scrape url attempt with
      | Except.ok dd => (Except.ok dd, [TraceEv.attempt url attempt])
      | Except.error e =>
        if r = 0 then (Except.error e, [TraceEv.attempt url attempt])
        else
          let next := retryGo env d url (attempt + 1) r
          (next.1, TraceEv.attempt url attempt ::
            TraceEv.wait (max d 1000) :: next.2) := rfl

/-- C5: with `maxRetries = 2`, a url whose scrape fails on every
attempt is attempted exactly 3 times with a `max(delayMs, 1000)`
suspension between consecutive attempts; the queue iteration then
records one error entry for the url, appends exactly one placeholder
record with a non-null error, and leaves the loop live for the rest of
the queue; the placeholder record has empty fields. -/
theorem retry_exhaustion_placeholder :
    ∀ (env : ScrapeEnv) (d : Nat) (url : String) (m : Nat → String),
      (∀ k, env.scrape url k = Except.error (m k)) →
      (scrapeDoctorProfileWithRetries env d 2 url =
        (Except.error (m 3),
         [TraceEv.attempt url 1, TraceEv.wait (max d 1000),
          TraceEv.attempt url 2, TraceEv.wait (max d 1000),
          TraceEv.attempt url 3])) ∧
      (∀ s : QueueState,
        s.isScraping = true → s.currentIndex < s.queue.length →
        s.stopRequested = false → s.queue.getD s.currentIndex "" = url →
        url ≠ "" → s.visited.contains url = false →
        ∃ s' tr, processStep env ⟨d, 2⟩ s = some (s', tr) ∧
          (tr.filter TraceEv.isAttempt).length = 3 ∧
          (if m 3 = "" then "Unknown error" else m 3) ≠ "" ∧
          s'.results = s.results ++
            [⟨normaliseDoctorData emptyDoctorData url,
              some (if m 3 = "" then "Unknown error" else m 3)⟩] ∧
          s'.errors.filter (fun e => e.url = url) =
            [⟨url, if m 3 = "" then "Unknown error" else m 3⟩] ∧
          s'.currentIndex = s.currentIndex + 1 ∧
          s'.isScraping = true ∧ s'.queue = s.queue ∧
          s'.stopRequested = false) ∧
      ((normaliseDoctorData emptyDoctorData url).name = "" ∧
       (normaliseDoctorData emptyDoctorData url).specialty = "" ∧
       (normaliseDoctorData emptyDoctorData url).code = "" ∧
       (normaliseDoctorData emptyDoctorData url).city = "" ∧
       (normaliseDoctorData emptyDoctorData url).address = [] ∧
       (normaliseDoctorData emptyDoctorData url).phones = [] ∧
       (normaliseDoctorData emptyDoctorData url).offices = [] ∧
       (url ≠ "" → (normaliseDoctorData emptyDoctorData url).url = url)) := by
  intro env d url m hm
  have e3 : retryGo env d url 3 1 = (Except.error (m 3), [TraceEv.attempt url 3]) := by
    rw [show (1 : Nat) = 0 + 1 from rfl, retryGo_succ, hm 3]
    simp
  have e2 : retryGo env d url 2 2 =
      (Except.error (m 3),
       [TraceEv.attempt url 2, TraceEv.wait (max d 1000), TraceEv.attempt url 3]) := by
    rw [show (2 : Nat) = 1 + 1 from rfl, retryGo_succ, hm 2]
    simp [e3]
  have e1 : scrapeDoctorProfileWithRetries env d 2 url =
      (Except.error (m 3),
       [TraceEv.attempt url 1, TraceEv.wait (max d 1000), TraceEv.attempt url 2,
        TraceEv.wait (max d 1000), TraceEv.attempt url 3]) := by
    show retryGo env d url 1 (2 + 1) = _
    rw [retryGo_succ, hm 1]
    simp [e2]
  refine ⟨e1, fun s hscr hlt hstop hgetD hurl hvis => ?_, ?_⟩
  · have hcomp : processStep env ⟨d, 2⟩ s = some
        ({ queue := s.queue, currentIndex := s.currentIndex + 1,
           visited := url :: s.visited,
           results := s.results ++ [⟨normaliseDoctorData emptyDoctorData url,
             some (if m 3 = "" then "Unknown error" else m 3)⟩],
           errors := recordError s.errors url
             (if m 3 = "" then "Unknown error" else m 3),
           lastDoctor := some
             ((jsOrS (normaliseDoctorData emptyDoctorData url).name
               (jsOrS (normaliseDoctorData emptyDoctorData url).url url)) ++
                 " (failed)",
              jsOrS (normaliseDoctorData emptyDoctorData url).url url),
           stopRequested := false, isScraping := true },
         [TraceEv.attempt url 1, TraceEv.wait (max d 1000),
          TraceEv.attempt url 2, TraceEv.wait (max d 1000),
          TraceEv.attempt url 3] ++
           (if ¬false = true ∧ s.currentIndex + 1 < s.queue.length ∧ 0 < d
            then [TraceEv.wait d] else [])) := by
      simp only [processStep, hscr, hlt, hstop, hgetD]
      rw [if_neg (by simp)]
      rw [if_neg (by simp)]
      rw [if_neg hurl]
      rw [hvis]
      rw [if_neg (by simp)]
      rw [e1]
    refine ⟨_, _, hcomp, ?_, ?_, rfl, ?_, rfl, rfl, rfl, rfl⟩
    · rw [List.filter_append]
      split
      · rfl
      · rfl
    · split
      · simp
      · next hne => simpa using hne
    · show (recordError s.errors url
        (if m 3 = "" then "Unknown error" else m 3)).filter
          (fun e => e.url = url) = _
      rw [recordError_filter]
      rw [if_neg (show ¬((if m 3 = "" then "Unknown error" else m 3) = "") from by
        split
        · simp
        · next hne => exact hne)]
  · refine ⟨rfl, rfl, rfl, rfl, rfl, rfl, rfl, fun hu => ?_⟩
    simp only [normaliseDoctorData]
    rw [if_pos hu]

/-- A fresh two-entry queue whose first url has not been visited. -/
def qFailState : QueueState :=
  ⟨["https://nobat.ir/dr/1", "https://nobat.ir/dr/2"], 0, [], [], [], none,
    false, true⟩

/-- C5 witness: the permanently failing oracle at `maxRetries = 2` on
a concrete fresh state yields three attempts, one placeholder record
with non-null error and one error entry, and leaves the loop live. -/
theorem retry_exhaustion_placeholder_witness :
    ∃ s' tr, processStep qEnv ⟨0, 2⟩ qFailState = some (s', tr) ∧
      (tr.filter TraceEv.isAttempt).length = 3 ∧
      (if ("boom" : String) = "" then "Unknown error" else "boom") ≠ "" ∧
      s'.results = qFailState.results ++
        [⟨normaliseDoctorData emptyDoctorData "https://nobat.ir/dr/1",
          some (if ("boom" : String) = "" then "Unknown error" else "boom")⟩] ∧
      s'.errors.filter (fun e => e.url = "https://nobat.ir/dr/1") =
        [⟨"https://nobat.ir/dr/1",
          if ("boom" : String) = "" then "Unknown error" else "boom"⟩] ∧
      s'.currentIndex = qFailState.currentIndex + 1 ∧
      s'.isScraping = true ∧ s'.queue = qFailState.queue ∧
      s'.stopRequested = false :=
  (retry_exhaustion_placeholder qEnv 0 "https://nobat.ir/dr/1"
    (fun _ => "boom") (fun _ => rfl)).2.1 qFailState rfl (by decide) rfl rfl
    (by decide) rfl

theorem mem_normaliseOfficeAux :
    ∀ (l : List OfficeInput) (seen : List String) (o : Office),
      o ∈ normaliseOfficeAux l seen →
      ¬(o.city = "" ∧ o.addresses = [] ∧ o.phones = [])
  | [], _, o, h => by simp [normaliseOfficeAux] at h
  | oi :: l, seen, o, h => by
    simp only [normaliseOfficeAux] at h
    split at h
    · exact mem_normaliseOfficeAux l seen o h
    · next hne =>
      split at h
      · exact mem_normaliseOfficeAux l _ o h
      · rcases List.mem_cons.mp h with heq | hmem
        · subst heq
          exact hne
        · exact mem_normaliseOfficeAux l _ o hmem

theorem nodup_normaliseOfficeAux :
    ∀ (l : List OfficeInput) (seen : List String),
      ((normaliseOfficeAux l seen).map storedOfficeKey).Nodup ∧
      (∀ k ∈ (normaliseOfficeAux l seen).map storedOfficeKey, k ∉ seen)
  | [], _ => by simp [normaliseOfficeAux]
  | oi :: l, seen => by
    simp only [normaliseOfficeAux]
    split
    · exact nodup_normaliseOfficeAux l seen
    · split
      · exact nodup_normaliseOfficeAux l _
      · next hcont =>
        obtain ⟨ih1, ih2⟩ := nodup_normaliseOfficeAux l
          (officeKey (normalisedOfficeCity oi) (normalisedOfficeAddresses oi)
            (normalisedOfficePhones oi) :: seen)
        rw [Bool.not_eq_true] at hcont
        constructor
        · rw [List.map_cons, List.nodup_cons]
          refine ⟨fun hmem => ?_, ih1⟩
          exact ih2 _ hmem (List.mem_cons_self _ _)
        · intro k hk
          rcases List.mem_cons.mp hk with heq | hmem
          · subst heq
            exact contains_false_not_mem hcont
          · intro hseen
            exact ih2 k hmem (List.mem_cons_of_mem _ hseen)

theorem pushOffice_empty (st : List Office × List String) (dd : OfficeDetails)
    (hc : pushOfficeCity dd = "") (ha : pushOfficeAddresses dd = [])
    (hp : pushOfficePhones dd = []) : pushOffice st dd = st := by
  simp only [pushOffice]
  rw [if_pos ⟨hc, ha, hp⟩]

theorem pushOffice_dedup (st : List Office × List String) (d1 d2 : OfficeDetails)
    (hc : pushOfficeCity d1 = pushOfficeCity d2)
    (ha : pushOfficeAddresses d1 = pushOfficeAddresses d2)
    (hp : pushOfficePhones d1 = pushOfficePhones d2) :
    pushOffice (pushOffice st d1) d2 = pushOffice st d1 := by
  simp only [pushOffice, ← hc, ← ha, ← hp]
  by_cases hempty : pushOfficeCity d1 = "" ∧ pushOfficeAddresses d1 = [] ∧
      pushOfficePhones d1 = []
  · rw [if_pos hempty, if_pos hempty]
  · rw [if_neg hempty]
    by_cases hcont : st.2.contains (String.intercalate "@@"
        [pushOfficeCity d1, String.intercalate "||" (pushOfficeAddresses d1),
         String.intercalate "||" (pushOfficePhones d1)]) = true
    · rw [if_pos hcont, if_neg hempty, if_pos hcont]
    · rw [if_neg hcont, if_neg hempty]
      rw [if_pos (show (String.intercalate "@@"
          [pushOfficeCity d1, String.intercalate "||" (pushOfficeAddresses d1),
           String.intercalate "||" (pushOfficePhones d1)] :: st.2).contains
            (String.intercalate "@@"
          [pushOfficeCity d1, String.intercalate "||" (pushOfficeAddresses d1),
           String.intercalate "||" (pushOfficePhones d1)]) = true from by
        simp [List.contains_cons])]

/-- C7: office aggregation discards a candidate whose normalised city,
addresses and phones are all empty (no stored office is ever entirely
empty), deduplicates stored offices by the composite
`(city, joined addresses, joined phones)` key, and two candidates with
identical normalised components yield exactly one stored office — in
`normaliseOfficeList` (background.js) and in `pushOffice`
(content-script.js) alike. -/
theorem office_aggregation_discard_and_dedup :
    (∀ (offices : List OfficeInput) (o : Office),
      o ∈ normaliseOfficeList offices →
      ¬(o.city = "" ∧ o.addresses = [] ∧ o.phones = [])) ∧
    (∀ offices : List OfficeInput,
      ((normaliseOfficeList offices).map storedOfficeKey).Nodup) ∧
    (∀ o1 o2 : OfficeInput,
      normalisedOfficeCity o1 = normalisedOfficeCity o2 →
      normalisedOfficeAddresses o1 = normalisedOfficeAddresses o2 →
      normalisedOfficePhones o1 = normalisedOfficePhones o2 →
      normaliseOfficeList [o1, o2] = normaliseOfficeList [o1]) ∧
    (∀ (st : List Office × List String) (dd : OfficeDetails),
      pushOfficeCity dd = "" → pushOfficeAddresses dd = [] →
      pushOfficePhones dd = [] → pushOffice st dd = st) ∧
    (∀ (st : List Office × List String) (d1 d2 : OfficeDetails),
      pushOfficeCity d1 = pushOfficeCity d2 →
      pushOfficeAddresses d1 = pushOfficeAddresses d2 →
      pushOfficePhones d1 = pushOfficePhones d2 →
      pushOffice (pushOffice st d1) d2 = pushOffice st d1) := by
  refine ⟨fun offices o h => mem_normaliseOfficeAux offices [] o h,
    fun offices => (nodup_normaliseOfficeAux offices []).1,
    fun o1 o2 hc ha hp => ?_, pushOffice_empty, pushOffice_dedup⟩
  simp only [normaliseOfficeList, normaliseOfficeAux, ← hc, ← ha, ← hp]
  by_cases hempty : normalisedOfficeCity o1 = "" ∧
      normalisedOfficeAddresses o1 = [] ∧ normalisedOfficePhones o1 = []
  · simp [if_pos hempty]
  · simp [if_neg hempty]

/-- A concrete office candidate. -/
def c7o1 : OfficeInput := ⟨"تهران", some ["خیابان آزادی"], none, some ["021-123"], none⟩

/-- The same office with different raw spacing, normalising to the
same components as `c7o1`. -/
def c7o2 : OfficeInput :=
  ⟨" تهران", some [" خیابان  آزادی "], none, some [" 021-123 "], none⟩

/-- C7 witness: two spacing variants of the same office collapse to
one stored office. -/
theorem office_aggregation_discard_and_dedup_witness :
    normalisedOfficeCity c7o1 = normalisedOfficeCity c7o2 ∧
    normaliseOfficeList [c7o1, c7o2] = normaliseOfficeList [c7o1] ∧
    normaliseOfficeList [c7o1] = [⟨"تهران", ["خیابان آزادی"], ["021-123"]⟩] :=
  ⟨by decide,
    office_aggregation_discard_and_dedup.2.2.1 c7o1 c7o2 (by decide) (by decide)
      (by decide),
    by decide⟩

end NobatScraper
